import Mathlib

/-!
# Verification of the polykms_frontend client-side secret cipher and UI glue

Shallow embedding of the `polymas/polykms_frontend` repository.

Byte buffers and character strings are modelled as `List Nat`:
* a *byte list* holds values `< 256`;
* an *ASCII string* (base64 text, tokens) holds ASCII character codes;
* a *plaintext string* holds Unicode scalar values (code points).

The cryptographic module `src/utils/crypto.ts` (named in the repository
README and imported by `Register.tsx` / `SecretManagement.tsx`) is not part
of the source snapshot, so its operations (`parseJWT` / `extractClientKey`,
`encryptSecret`, `decryptSecret`) are modelled from the specification
contract in §4.1 and §7 of the design document.  The AES-GCM primitive is
modelled as an ideal authenticated cipher: a keystream-masked body followed
by an authentication tag that binds key, nonce and ciphertext, which is the
guarantee the specification ascribes to the real primitive (round trip,
and failure on any tampering, wrong key or wrong nonce).

The UI glue (`env.ts`, `api.ts`, component handlers) is embedded directly
from the TypeScript under `src/`.
-/

namespace PolyKMS

/-- The typed error taxonomy of the cipher layer (spec §7). -/
inductive CryptoError where
  | MalformedToken
  | MissingClaim
  | InvalidKeyLength
  | InvalidEncoding
  | TruncatedCiphertext
  | DecryptionFailed
deriving DecidableEq, Repr

/-! ## Base64 (RFC 4648, standard alphabet, padded) -/

/-- ASCII code of the base64 character for an index `< 64`. -/
def b64Char (i : Nat) : Nat :=
  if i < 26 then 65 + i
  else if i < 52 then 97 + (i - 26)
  else if i < 62 then 48 + (i - 52)
  else if i = 62 then 43
  else 47

/-- Inverse of `b64Char`: the index of an ASCII code in the base64
alphabet, or `none` for a character outside the alphabet. -/
def b64Index (c : Nat) : Option Nat :=
  if 65 ≤ c ∧ c ≤ 90 then some (c - 65)
  else if 97 ≤ c ∧ c ≤ 122 then some (c - 97 + 26)
  else if 48 ≤ c ∧ c ≤ 57 then some (c - 48 + 52)
  else if c = 43 then some 62
  else if c = 47 then some 63
  else none

/-- Standard base64 encoding of a byte list, with `=` padding. -/
def base64Encode : List Nat → List Nat
  | [] => []
  | [b0] => [b64Char (b0 / 4), b64Char (b0 % 4 * 16), 61, 61]
  | [b0, b1] =>
      [b64Char (b0 / 4), b64Char (b0 % 4 * 16 + b1 / 16),
       b64Char (b1 % 16 * 4), 61]
  | b0 :: b1 :: b2 :: rest =>
      (b64Char (b0 / 4)) :: (b64Char (b0 % 4 * 16 + b1 / 16)) ::
      (b64Char (b1 % 16 * 4 + b2 / 64)) :: (b64Char (b2 % 64)) ::
      base64Encode rest

/-- Standard base64 decoding.  Fails on characters outside the alphabet,
on a length that is not a multiple of four, and on misplaced padding. -/
def base64Decode : List Nat → Option (List Nat)
  | [] => some []
  | c0 :: c1 :: c2 :: c3 :: rest =>
      match b64Index c0, b64Index c1 with
      | some i0, some i1 =>
          if c2 = 61 then
            if c3 = 61 ∧ rest = [] then some [i0 * 4 + i1 / 16] else none
          else
            match b64Index c2 with
            | some i2 =>
                if c3 = 61 then
                  if rest = [] then
                    some [i0 * 4 + i1 / 16, i1 % 16 * 16 + i2 / 4]
                  else none
                else
                  match b64Index c3 with
                  | some i3 =>
                      (base64Decode rest).map
                        (fun bs => (i0 * 4 + i1 / 16) ::
                          (i1 % 16 * 16 + i2 / 4) :: (i2 % 4 * 64 + i3) :: bs)
                  | none => none
            | none => none
      | _, _ => none
  | _ => none

theorem b64Index_b64Char : ∀ i < 64, b64Index (b64Char i) = some i := by
  decide

theorem b64Char_ne_pad : ∀ i < 64, b64Char i ≠ 61 := by decide

theorem b64Char_lt (i : Nat) : b64Char i < 256 := by
  unfold b64Char
  split <;> [omega; split <;> [omega; split <;> [omega; split <;> omega]]]

/-- Decoding inverts encoding on genuine byte lists. -/
theorem base64Decode_base64Encode :
    ∀ l : List Nat, (∀ b ∈ l, b < 256) →
      base64Decode (base64Encode l) = some l := by
  intro l
  induction l using base64Encode.induct with
  | case1 => intro _; rfl
  | case2 b0 =>
      intro h
      have hb0 : b0 < 256 := h b0 (by simp)
      have h0 : b0 / 4 < 64 := by omega
      have h1 : b0 % 4 * 16 < 64 := by omega
      simp [base64Encode, base64Decode,
        b64Index_b64Char _ h0, b64Index_b64Char _ h1]
      omega
  | case3 b0 b1 =>
      intro h
      have hb0 : b0 < 256 := h b0 (by simp)
      have hb1 : b1 < 256 := h b1 (by simp)
      have h0 : b0 / 4 < 64 := by omega
      have h1 : b0 % 4 * 16 + b1 / 16 < 64 := by omega
      have h2 : b1 % 16 * 4 < 64 := by omega
      have hne2 : b64Char (b1 % 16 * 4) ≠ 61 := b64Char_ne_pad _ h2
      simp [base64Encode, base64Decode, hne2,
        b64Index_b64Char _ h0, b64Index_b64Char _ h1, b64Index_b64Char _ h2]
      omega
  | case4 b0 b1 b2 rest ih =>
      intro h
      have hb0 : b0 < 256 := h b0 (by simp)
      have hb1 : b1 < 256 := h b1 (by simp)
      have hb2 : b2 < 256 := h b2 (by simp)
      have h0 : b0 / 4 < 64 := by omega
      have h1 : b0 % 4 * 16 + b1 / 16 < 64 := by omega
      have h2 : b1 % 16 * 4 + b2 / 64 < 64 := by omega
      have h3 : b2 % 64 < 64 := by omega
      have hne2 : b64Char (b1 % 16 * 4 + b2 / 64) ≠ 61 := b64Char_ne_pad _ h2
      have hne3 : b64Char (b2 % 64) ≠ 61 := b64Char_ne_pad _ h3
      have hrest : base64Decode (base64Encode rest) = some rest :=
        ih (fun b hb => h b (by simp [hb]))
      simp [base64Encode, base64Decode, hne2, hne3, hrest,
        b64Index_b64Char _ h0, b64Index_b64Char _ h1,
        b64Index_b64Char _ h2, b64Index_b64Char _ h3]
      refine ⟨by omega, by omega, by omega⟩

/-! ## UTF-8

Plaintext strings are lists of Unicode scalar values.  `utf8Encode` is the
standard UTF-8 serialisation; `utf8Decode` is the strict deserialiser
(rejecting overlong forms, surrogates and out-of-range sequences). -/

/-- A Unicode scalar value: below `0x110000` and not a surrogate. -/
def ValidCodePoint (c : Nat) : Prop :=
  c < 1114112 ∧ (c < 55296 ∨ 57343 < c)

instance (c : Nat) : Decidable (ValidCodePoint c) := by
  unfold ValidCodePoint; infer_instance

/-- UTF-8 bytes of a single scalar value. -/
def utf8EncodeChar (c : Nat) : List Nat :=
  if c < 128 then [c]
  else if c < 2048 then [192 + c / 64, 128 + c % 64]
  else if c < 65536 then [224 + c / 4096, 128 + c / 64 % 64, 128 + c % 64]
  else [240 + c / 262144, 128 + c / 4096 % 64, 128 + c / 64 % 64, 128 + c % 64]

/-- UTF-8 serialisation of a scalar-value list. -/
def utf8Encode (s : List Nat) : List Nat :=
  (s.map utf8EncodeChar).flatten

/-- One step of strict UTF-8 deserialisation: decode the scalar value
encoded at the head of the list, returning it with the remaining bytes. -/
def utf8DecodeStep : List Nat → Option (Nat × List Nat)
  | [] => none
  | b0 :: rest =>
      if b0 < 128 then some (b0, rest)
      else if b0 < 194 then none
      else if b0 < 224 then
        match rest with
        | b1 :: rest2 =>
            if 128 ≤ b1 ∧ b1 < 192 then
              some ((b0 - 192) * 64 + (b1 - 128), rest2)
            else none
        | [] => none
      else if b0 < 240 then
        match rest with
        | b1 :: b2 :: rest3 =>
            if (128 ≤ b1 ∧ b1 < 192) ∧ (128 ≤ b2 ∧ b2 < 192) ∧
                (b0 = 224 → 160 ≤ b1) ∧ (b0 = 237 → b1 < 160) then
              some ((b0 - 224) * 4096 + (b1 - 128) * 64 + (b2 - 128), rest3)
            else none
        | _ => none
      else if b0 < 245 then
        match rest with
        | b1 :: b2 :: b3 :: rest4 =>
            if (128 ≤ b1 ∧ b1 < 192) ∧ (128 ≤ b2 ∧ b2 < 192) ∧
                (128 ≤ b3 ∧ b3 < 192) ∧
                (b0 = 240 → 144 ≤ b1) ∧ (b0 = 244 → b1 < 144) then
              some ((b0 - 240) * 262144 + (b1 - 128) * 4096 +
                (b2 - 128) * 64 + (b3 - 128), rest4)
            else none
        | _ => none
      else none

/-- Fuel-indexed strict UTF-8 deserialisation; one unit of fuel per
decoded scalar value. -/
def utf8DecodeAux : Nat → List Nat → Option (List Nat)
  | _, [] => some []
  | 0, _ :: _ => none
  | fuel + 1, b0 :: rest =>
      match utf8DecodeStep (b0 :: rest) with
      | some (c, rest2) => (utf8DecodeAux fuel rest2).map (fun cs => c :: cs)
      | none => none

/-- Strict UTF-8 deserialisation (every decoded scalar value consumes at
least one byte, so the length of the input is enough fuel). -/
def utf8Decode (l : List Nat) : Option (List Nat) :=
  utf8DecodeAux l.length l

theorem utf8EncodeChar_lt (c : Nat) (h : c < 1114112) :
    ∀ b ∈ utf8EncodeChar c, b < 256 := by
  intro b hb
  unfold utf8EncodeChar at hb
  split at hb
  · simp at hb; omega
  · split at hb
    · simp at hb; omega
    · split at hb
      · simp at hb; omega
      · simp at hb; omega

theorem utf8DecodeStep_encodeChar (c : Nat) (hc : ValidCodePoint c)
    (rest : List Nat) :
    utf8DecodeStep (utf8EncodeChar c ++ rest) = some (c, rest) := by
  obtain ⟨hc1, hc2⟩ := hc
  by_cases h1 : c < 128
  · simp [utf8EncodeChar, utf8DecodeStep, h1]
  · by_cases h2 : c < 2048
    · simp only [utf8EncodeChar, if_neg h1, if_pos h2, List.cons_append,
        List.nil_append, utf8DecodeStep]
      have g1 : ¬(192 + c / 64 < 128) := by omega
      have g2 : ¬(192 + c / 64 < 194) := by omega
      have g3 : 192 + c / 64 < 224 := by omega
      rw [if_neg g1, if_neg g2, if_pos g3]
      have g4 : 128 ≤ 128 + c % 64 ∧ 128 + c % 64 < 192 := by omega
      rw [if_pos g4]
      simp only [Option.some.injEq, Prod.mk.injEq]
      exact ⟨by omega, trivial⟩
    · by_cases h3 : c < 65536
      · simp only [utf8EncodeChar, if_neg h1, if_neg h2, if_pos h3,
          List.cons_append, List.nil_append, utf8DecodeStep]
        have g1 : ¬(224 + c / 4096 < 128) := by omega
        have g2 : ¬(224 + c / 4096 < 194) := by omega
        have g3 : ¬(224 + c / 4096 < 224) := by omega
        have g4 : 224 + c / 4096 < 240 := by omega
        rw [if_neg g1, if_neg g2, if_neg g3, if_pos g4]
        have g5 : (128 ≤ 128 + c / 64 % 64 ∧ 128 + c / 64 % 64 < 192) ∧
            (128 ≤ 128 + c % 64 ∧ 128 + c % 64 < 192) ∧
            (224 + c / 4096 = 224 → 160 ≤ 128 + c / 64 % 64) ∧
            (224 + c / 4096 = 237 → 128 + c / 64 % 64 < 160) := by omega
        rw [if_pos g5]
        simp only [Option.some.injEq, Prod.mk.injEq]
        exact ⟨by omega, trivial⟩
      · simp only [utf8EncodeChar, if_neg h1, if_neg h2, if_neg h3,
          List.cons_append, List.nil_append, utf8DecodeStep]
        have g1 : ¬(240 + c / 262144 < 128) := by omega
        have g2 : ¬(240 + c / 262144 < 194) := by omega
        have g3 : ¬(240 + c / 262144 < 224) := by omega
        have g4 : ¬(240 + c / 262144 < 240) := by omega
        have g5 : 240 + c / 262144 < 245 := by omega
        rw [if_neg g1, if_neg g2, if_neg g3, if_neg g4, if_pos g5]
        have g6 : (128 ≤ 128 + c / 4096 % 64 ∧ 128 + c / 4096 % 64 < 192) ∧
            (128 ≤ 128 + c / 64 % 64 ∧ 128 + c / 64 % 64 < 192) ∧
            (128 ≤ 128 + c % 64 ∧ 128 + c % 64 < 192) ∧
            (240 + c / 262144 = 240 → 144 ≤ 128 + c / 4096 % 64) ∧
            (240 + c / 262144 = 244 → 128 + c / 4096 % 64 < 144) := by omega
        rw [if_pos g6]
        simp only [Option.some.injEq, Prod.mk.injEq]
        exact ⟨by omega, trivial⟩

theorem utf8EncodeChar_ne_nil (c : Nat) : utf8EncodeChar c ≠ [] := by
  unfold utf8EncodeChar
  split
  · simp
  · split
    · simp
    · split <;> simp

theorem utf8DecodeAux_nil (fuel : Nat) : utf8DecodeAux fuel [] = some [] := by
  cases fuel <;> rfl

theorem utf8DecodeAux_encode (s : List Nat) :
    (∀ c ∈ s, ValidCodePoint c) →
    ∀ fuel, s.length ≤ fuel →
      utf8DecodeAux fuel (utf8Encode s) = some s := by
  induction s with
  | nil => intro _ fuel _; simp [utf8Encode]; exact utf8DecodeAux_nil fuel
  | cons c s ih =>
      intro h fuel hfuel
      have hc : ValidCodePoint c := h c (by simp)
      obtain ⟨f, rfl⟩ : ∃ f, fuel = f + 1 := by
        cases fuel with
        | zero => simp at hfuel
        | succ f => exact ⟨f, rfl⟩
      have hjoin : utf8Encode (c :: s) = utf8EncodeChar c ++ utf8Encode s := by
        simp [utf8Encode]
      rw [hjoin]
      obtain ⟨b0, tl, htl⟩ : ∃ b0 tl, utf8EncodeChar c = b0 :: tl := by
        cases hk : utf8EncodeChar c with
        | nil => exact absurd hk (utf8EncodeChar_ne_nil c)
        | cons x xs => exact ⟨x, xs, rfl⟩
      rw [htl, List.cons_append, utf8DecodeAux]
      rw [← List.cons_append, ← htl, utf8DecodeStep_encodeChar c hc]
      have hs : utf8DecodeAux f (utf8Encode s) = some s := by
        refine ih (fun x hx => h x (by simp [hx])) f (by simpa using hfuel)
      simp [hs]

theorem utf8Encode_length_ge (s : List Nat) :
    s.length ≤ (utf8Encode s).length := by
  induction s with
  | nil => simp [utf8Encode]
  | cons c s ih =>
      have hj : utf8Encode (c :: s) = utf8EncodeChar c ++ utf8Encode s := by
        simp [utf8Encode]
      rw [hj, List.length_append, List.length_cons]
      have hne : utf8EncodeChar c ≠ [] := utf8EncodeChar_ne_nil c
      have h1 : 1 ≤ (utf8EncodeChar c).length := by
        cases hk : utf8EncodeChar c with
        | nil => exact absurd hk hne
        | cons x xs => simp
      omega

/-- Decoding inverts encoding on valid scalar values. -/
theorem utf8Decode_utf8Encode (s : List Nat)
    (h : ∀ c ∈ s, ValidCodePoint c) :
    utf8Decode (utf8Encode s) = some s :=
  utf8DecodeAux_encode s h (utf8Encode s).length (utf8Encode_length_ge s)

/-! ## The cipher core (spec §4.1)

Modelled from the spec: `src/utils/crypto.ts` is absent from the source
snapshot (only its callers and the README mention it), so `encryptSecret`
and `decryptSecret` are modelled from the specification of `encrypt` and
`decrypt`.  AES-GCM is replaced by an ideal authenticated stream cipher:
the body is the plaintext masked by a key/nonce-derived keystream, and the
appended authentication tag binds the key, the nonce and the ciphertext
exactly (the idealisation of the GCM tag check the spec relies on: any
tampering with nonce, body or tag, and any wrong key, is detected). -/

/-- Keystream byte `i` derived from key and nonce. -/
def keystreamByte (key nonce : List Nat) (i : Nat) : Nat :=
  (key.getD (i % 32) 0 + nonce.getD (i % 12) 0 + i) % 256

/-- Mask a byte list with the keystream, starting at position `i`. -/
def streamEnc (key nonce : List Nat) : Nat → List Nat → List Nat
  | _, [] => []
  | i, b :: bs =>
      ((b + keystreamByte key nonce i) % 256) :: streamEnc key nonce (i + 1) bs

/-- Unmask a byte list, starting at position `i`. -/
def streamDec (key nonce : List Nat) : Nat → List Nat → List Nat
  | _, [] => []
  | i, b :: bs =>
      ((b + 256 - keystreamByte key nonce i) % 256) ::
        streamDec key nonce (i + 1) bs

/-- Seal a plaintext byte list: masked body followed by the ideal
authentication tag `key ++ nonce ++ body`. -/
def gcmSeal (key nonce pt : List Nat) : List Nat :=
  streamEnc key nonce 0 pt ++ (key ++ (nonce ++ streamEnc key nonce 0 pt))

/-- Open a sealed buffer: recover the masked body from the length
(`|body| = (|buffer| - 44) / 2` for a 32-byte key and 12-byte nonce),
verify the tag, and unmask.  Any mismatch is an authentication failure. -/
def gcmOpen (key nonce body : List Nat) : Option (List Nat) :=
  if 44 ≤ body.length ∧ (body.length - 44) % 2 = 0 then
    if body.drop ((body.length - 44) / 2) =
        key ++ (nonce ++ body.take ((body.length - 44) / 2)) then
      some (streamDec key nonce 0 (body.take ((body.length - 44) / 2)))
    else none
  else none

/-- Modelled from the spec: `encrypt(plaintext, keyBytes)` of §4.1, with
the CSPRNG-drawn 12-byte nonce made an explicit argument.  Checks the key
length, UTF-8-encodes the plaintext, seals it, prepends the nonce and
base64-encodes the result. -/
def encryptSecret (plaintext key nonce : List Nat) :
    Except CryptoError (List Nat) :=
  if key.length ≠ 32 then .error .InvalidKeyLength
  else .ok (base64Encode (nonce ++ gcmSeal key nonce (utf8Encode plaintext)))

/-- Modelled from the spec: `decrypt(ciphertextBase64, keyBytes)` of §4.1.
Checks the key length, base64-decodes, checks the 12-byte nonce is
present at the front, opens the sealed remainder and UTF-8-decodes the plaintext. -/
def decryptSecret (ciphertextBase64 key : List Nat) :
    Except CryptoError (List Nat) :=
  if key.length ≠ 32 then .error .InvalidKeyLength
  else
    match base64Decode ciphertextBase64 with
    | none => .error .InvalidEncoding
    | some buf =>
        if buf.length < 12 then .error .TruncatedCiphertext
        else
          match gcmOpen key (buf.take 12) (buf.drop 12) with
          | none => .error .DecryptionFailed
          | some ptBytes =>
              match utf8Decode ptBytes with
              | some cs => .ok cs
              | none => .error .DecryptionFailed

/-! ### Cipher lemmas -/

theorem keystreamByte_lt (key nonce : List Nat) (i : Nat) :
    keystreamByte key nonce i < 256 := by
  unfold keystreamByte; omega

theorem streamEnc_length (key nonce : List Nat) :
    ∀ i pt, (streamEnc key nonce i pt).length = pt.length := by
  intro i pt
  induction pt generalizing i with
  | nil => rfl
  | cons b bs ih => simp [streamEnc, ih]

theorem streamEnc_lt (key nonce : List Nat) :
    ∀ i pt, ∀ b ∈ streamEnc key nonce i pt, b < 256 := by
  intro i pt
  induction pt generalizing i with
  | nil => intro b hb; simp [streamEnc] at hb
  | cons x xs ih =>
      intro b hb
      simp only [streamEnc, List.mem_cons] at hb
      rcases hb with h | h
      · omega
      · exact ih (i + 1) b h

theorem streamDec_streamEnc (key nonce : List Nat) :
    ∀ i pt, (∀ b ∈ pt, b < 256) →
      streamDec key nonce i (streamEnc key nonce i pt) = pt := by
  intro i pt
  induction pt generalizing i with
  | nil => intro _; rfl
  | cons b bs ih =>
      intro h
      have hb : b < 256 := h b (by simp)
      have hk : keystreamByte key nonce i < 256 := keystreamByte_lt key nonce i
      simp only [streamEnc, streamDec, List.cons.injEq]
      exact ⟨by omega, ih (i + 1) (fun x hx => h x (by simp [hx]))⟩

theorem utf8Encode_lt (s : List Nat) (h : ∀ c ∈ s, ValidCodePoint c) :
    ∀ b ∈ utf8Encode s, b < 256 := by
  intro b hb
  simp only [utf8Encode, List.mem_flatten, List.mem_map] at hb
  obtain ⟨l, ⟨c, hc, rfl⟩, hbl⟩ := hb
  exact utf8EncodeChar_lt c (h c hc).1 b hbl

theorem gcmSeal_lt (key nonce pt : List Nat)
    (hkey : ∀ b ∈ key, b < 256) (hnonce : ∀ b ∈ nonce, b < 256) :
    ∀ b ∈ gcmSeal key nonce pt, b < 256 := by
  intro b hb
  simp only [gcmSeal, List.mem_append] at hb
  rcases hb with h | h | h | h
  · exact streamEnc_lt key nonce 0 pt b h
  · exact hkey b h
  · exact hnonce b h
  · exact streamEnc_lt key nonce 0 pt b h

/-- Opening inverts sealing (for a 32-byte key and 12-byte nonce). -/
theorem gcmOpen_gcmSeal (key nonce pt : List Nat)
    (hkey : key.length = 32) (hnonce : nonce.length = 12)
    (hpt : ∀ b ∈ pt, b < 256) :
    gcmOpen key nonce (gcmSeal key nonce pt) = some pt := by
  set ct := streamEnc key nonce 0 pt with hct
  have hctlen : ct.length = pt.length := streamEnc_length key nonce 0 pt
  have hlen : (gcmSeal key nonce pt).length = 2 * pt.length + 44 := by
    simp [gcmSeal, ← hct, hkey, hnonce, hctlen]; omega
  have hn : ((gcmSeal key nonce pt).length - 44) / 2 = ct.length := by omega
  have htake : (gcmSeal key nonce pt).take ct.length = ct := by
    simp [gcmSeal, ← hct, List.take_left]
  have hdrop : (gcmSeal key nonce pt).drop ct.length =
      key ++ nonce ++ ct := by
    simp [gcmSeal, ← hct, List.drop_left]
  unfold gcmOpen
  rw [if_pos (by omega), hn, htake, hdrop, if_pos (by simp [List.append_assoc])]
  rw [hct, streamDec_streamEnc key nonce 0 pt hpt]

/-- Shorthand for the validity of the cipher parameters: a 32-byte key,
a 12-byte nonce (all genuine bytes) and a plaintext of Unicode scalar
values. -/
def ValidParams (pt key nonce : List Nat) : Prop :=
  key.length = 32 ∧ (∀ b ∈ key, b < 256) ∧
  nonce.length = 12 ∧ (∀ b ∈ nonce, b < 256) ∧
  (∀ c ∈ pt, ValidCodePoint c)

instance (pt key nonce : List Nat) : Decidable (ValidParams pt key nonce) := by
  unfold ValidParams; infer_instance

theorem encryptSecret_eq (pt key nonce : List Nat) (hk : key.length = 32) :
    encryptSecret pt key nonce =
      .ok (base64Encode (nonce ++ gcmSeal key nonce (utf8Encode pt))) := by
  simp [encryptSecret, hk]

theorem encryptBuffer_lt (pt key nonce : List Nat)
    (h : ValidParams pt key nonce) :
    ∀ b ∈ nonce ++ gcmSeal key nonce (utf8Encode pt), b < 256 := by
  obtain ⟨hk, hkB, hn, hnB, hpt⟩ := h
  intro b hb
  rcases List.mem_append.mp hb with hm | hm
  · exact hnB b hm
  · exact gcmSeal_lt key nonce (utf8Encode pt) hkB hnB b hm

theorem encryptBuffer_decode (pt key nonce : List Nat)
    (h : ValidParams pt key nonce) :
    base64Decode (base64Encode (nonce ++ gcmSeal key nonce (utf8Encode pt))) =
      some (nonce ++ gcmSeal key nonce (utf8Encode pt)) :=
  base64Decode_base64Encode _ (encryptBuffer_lt pt key nonce h)

theorem gcmSeal_length (key nonce pt : List Nat)
    (hk : key.length = 32) (hn : nonce.length = 12) :
    (gcmSeal key nonce pt).length = 2 * pt.length + 44 := by
  simp [gcmSeal, hk, hn, streamEnc_length]
  omega

/-- Core round trip: decrypting what `encryptSecret` produced, under the
same key, recovers the plaintext. -/
theorem decrypt_encrypt_aux (pt key nonce : List Nat)
    (h : ValidParams pt key nonce) :
    decryptSecret (base64Encode (nonce ++ gcmSeal key nonce (utf8Encode pt)))
      key = .ok pt := by
  obtain ⟨hk, hkB, hn, hnB, hpt⟩ := h
  have hdec := encryptBuffer_decode pt key nonce ⟨hk, hkB, hn, hnB, hpt⟩
  unfold decryptSecret
  rw [if_neg (by omega), hdec]
  simp only []
  have hlen : (nonce ++ gcmSeal key nonce (utf8Encode pt)).length =
      2 * (utf8Encode pt).length + 56 := by
    simp [gcmSeal_length key nonce _ hk hn, hn]
    omega
  rw [if_neg (by omega)]
  have htake : (nonce ++ gcmSeal key nonce (utf8Encode pt)).take 12 = nonce := by
    rw [← hn]; exact List.take_left nonce _
  have hdrop : (nonce ++ gcmSeal key nonce (utf8Encode pt)).drop 12 =
      gcmSeal key nonce (utf8Encode pt) := by
    rw [← hn]; exact List.drop_left nonce _
  rw [htake, hdrop,
    gcmOpen_gcmSeal key nonce (utf8Encode pt) hk hn (utf8Encode_lt pt hpt)]
  simp [utf8Decode_utf8Encode pt hpt]

/-! ### List surgery lemmas for the tamper-detection proof -/

theorem take_set_of_le (l : List Nat) (i n b : Nat) (h : n ≤ i) :
    (l.set i b).take n = l.take n := by
  apply List.ext_getElem
  · simp
  · intro j h1 h2
    have hj : j < n := by simp [List.length_take] at h1; omega
    rw [List.getElem_take, List.getElem_take, List.getElem_set,
      if_neg (by omega)]

theorem drop_set_of_lt (l : List Nat) (i n b : Nat) (h : i < n) :
    (l.set i b).drop n = l.drop n := by
  apply List.ext_getElem
  · simp
  · intro j h1 h2
    rw [List.getElem_drop, List.getElem_drop, List.getElem_set,
      if_neg (by omega)]

theorem drop_set_of_le (l : List Nat) (i n b : Nat) (h : n ≤ i) :
    (l.set i b).drop n = (l.drop n).set (i - n) b := by
  apply List.ext_getElem
  · simp
  · intro j h1 h2
    rw [List.getElem_drop, List.getElem_set, List.getElem_set]
    by_cases hc : i = n + j
    · rw [if_pos hc, if_pos (show i - n = j by omega)]
    · rw [if_neg hc, if_neg (show ¬ i - n = j by omega), List.getElem_drop]

theorem set_ne_self_of_ne (l : List Nat) (i b : Nat) (hi : i < l.length)
    (hb : ¬ l[i]? = some b) : l.set i b ≠ l := by
  intro heq
  apply hb
  rw [← heq, List.getElem?_set, if_pos rfl, if_pos hi]

theorem mem_set_imp (l : List Nat) (i b x : Nat) (hx : x ∈ l.set i b) :
    x ∈ l ∨ x = b := by
  induction l generalizing i with
  | nil => simp at hx
  | cons y ys ih =>
      cases i with
      | zero =>
          simp only [List.set] at hx
          rcases List.mem_cons.mp hx with h | h
          · exact Or.inr h
          · exact Or.inl (List.mem_cons_of_mem y h)
      | succ j =>
          simp only [List.set] at hx
          rcases List.mem_cons.mp hx with h | h
          · exact Or.inl (h ▸ List.mem_cons_self y ys)
          · rcases ih j h with h2 | h2
            · exact Or.inl (List.mem_cons_of_mem y h2)
            · exact Or.inr h2

/-- Tampering core: changing one byte of the sealed buffer
`nonce ++ (ct ++ (K ++ (nonce ++ ct)))` makes the tag check of
`gcmOpen` fail. -/
theorem gcmOpen_set_none (K nonce ct : List Nat)
    (hK : K.length = 32) (hn : nonce.length = 12) (i b : Nat)
    (hi : i < (nonce ++ (ct ++ (K ++ (nonce ++ ct)))).length)
    (hb : ¬ (nonce ++ (ct ++ (K ++ (nonce ++ ct))))[i]? = some b) :
    gcmOpen K (((nonce ++ (ct ++ (K ++ (nonce ++ ct)))).set i b).take 12)
      (((nonce ++ (ct ++ (K ++ (nonce ++ ct)))).set i b).drop 12) = none := by
  set L := ct.length with hL
  set buf := nonce ++ (ct ++ (K ++ (nonce ++ ct))) with hbuf
  set X := buf.set i b with hXdef
  have hbuflen : buf.length = 2 * L + 56 := by
    simp [hbuf, hK, hn]; omega
  have hXlen : X.length = 2 * L + 56 := by
    simp [hXdef, hbuflen]
  have hF1 : buf.take 12 = nonce := by
    rw [hbuf, ← hn, List.take_left]
  have hD12 : buf.drop 12 = ct ++ (K ++ (nonce ++ ct)) := by
    rw [hbuf, ← hn, List.drop_left]
  have hF2 : (buf.drop 12).take L = ct := by
    rw [hD12, hL, List.take_left]
  have hF3 : buf.drop (12 + L) = K ++ (nonce ++ ct) := by
    rw [← List.drop_drop, hD12, hL, List.drop_left]
  have hbody : (X.drop 12).length = 2 * L + 44 := by
    simp [hXlen]
  unfold gcmOpen
  rw [if_pos (by omega)]
  have hm : ((X.drop 12).length - 44) / 2 = L := by omega
  rw [hm]
  rw [if_neg ?hfail]
  case hfail =>
    intro hcheck
    have hdd : (X.drop 12).drop L = X.drop (12 + L) := by
      rw [List.drop_drop]
    by_cases hcase : i < 12 + L
    · have hXdrop : X.drop (12 + L) = buf.drop (12 + L) :=
        drop_set_of_lt buf i (12 + L) b hcase
      rw [hdd, hXdrop, hF3] at hcheck
      have hc2 : nonce ++ ct = X.take 12 ++ (X.drop 12).take L :=
        List.append_cancel_left hcheck
      have hlen12 : (X.take 12).length = 12 := by
        simp [List.length_take, hXlen]
      obtain ⟨hnn, hcc⟩ := List.append_inj hc2 (by rw [hn, hlen12])
      have hXtake : X.take (12 + L) = nonce ++ ct := by
        rw [List.take_add, ← hnn, ← hcc]
      have hbtake : buf.take (12 + L) = nonce ++ ct := by
        rw [List.take_add, hF1, hF2]
      have hXb : X = buf := by
        conv_lhs => rw [← List.take_append_drop (12 + L) X]
        rw [hXtake, hXdrop, ← hbtake, List.take_append_drop]
      exact set_ne_self_of_ne buf i b (by omega) hb hXb
    · push_neg at hcase
      have hXtake12 : X.take 12 = buf.take 12 :=
        take_set_of_le buf i 12 b (by omega)
      have hXtakeL : (X.drop 12).take L = (buf.drop 12).take L := by
        rw [drop_set_of_le buf i 12 b (by omega)]
        exact take_set_of_le _ _ _ _ (by omega)
      have hXdropL : X.drop (12 + L) = (buf.drop (12 + L)).set (i - (12 + L)) b :=
        drop_set_of_le buf i (12 + L) b (by omega)
      rw [hdd, hXdropL, hXtake12, hF1, hXtakeL, hF2, hF3] at hcheck
      have hj : i - (12 + L) < (K ++ (nonce ++ ct)).length := by
        simp [hK, hn]; omega
      apply set_ne_self_of_ne (K ++ (nonce ++ ct)) (i - (12 + L)) b hj ?_ hcheck
      rw [← hF3, List.getElem?_drop]
      have hidx : 12 + L + (i - (12 + L)) = i := by omega
      rw [hidx]
      exact hb

/-- Decrypting a tampered buffer (any single byte changed anywhere in the
decoded buffer: nonce, body or tag) fails with `DecryptionFailed`. -/
theorem decrypt_tampered_aux (P K nonce : List Nat)
    (h : ValidParams P K nonce) (i b : Nat)
    (hi : i < (nonce ++ gcmSeal K nonce (utf8Encode P)).length)
    (hblt : b < 256)
    (hbne : ¬ (nonce ++ gcmSeal K nonce (utf8Encode P))[i]? = some b) :
    decryptSecret
      (base64Encode ((nonce ++ gcmSeal K nonce (utf8Encode P)).set i b)) K =
      .error .DecryptionFailed := by
  obtain ⟨hk, hkB, hn, hnB, hpt⟩ := h
  have hXbytes : ∀ x ∈ (nonce ++ gcmSeal K nonce (utf8Encode P)).set i b,
      x < 256 := by
    intro x hx
    rcases mem_set_imp _ _ _ _ hx with hm | hm
    · exact encryptBuffer_lt P K nonce ⟨hk, hkB, hn, hnB, hpt⟩ x hm
    · omega
  have hdecX := base64Decode_base64Encode _ hXbytes
  have hlen : (nonce ++ gcmSeal K nonce (utf8Encode P)).length =
      2 * (utf8Encode P).length + 56 := by
    simp [gcmSeal_length K nonce _ hk hn, hn]
    omega
  unfold decryptSecret
  rw [if_neg (by omega), hdecX]
  simp only []
  rw [if_neg (by simp [List.length_set]; omega)]
  have hopen : gcmOpen K
      (((nonce ++ gcmSeal K nonce (utf8Encode P)).set i b).take 12)
      (((nonce ++ gcmSeal K nonce (utf8Encode P)).set i b).drop 12) = none := by
    simp only [gcmSeal] at hi hbne ⊢
    exact gcmOpen_set_none K nonce (streamEnc K nonce 0 (utf8Encode P))
      hk hn i b hi hbne
  rw [hopen]

/-- Decrypting with a different 32-byte key fails with
`DecryptionFailed`. -/
theorem decrypt_wrong_key_aux (P K K2 nonce : List Nat)
    (h : ValidParams P K nonce) (hK2 : K2.length = 32) (hne : K2 ≠ K) :
    decryptSecret (base64Encode (nonce ++ gcmSeal K nonce (utf8Encode P)))
      K2 = .error .DecryptionFailed := by
  obtain ⟨hk, hkB, hn, hnB, hpt⟩ := h
  have hdec := encryptBuffer_decode P K nonce ⟨hk, hkB, hn, hnB, hpt⟩
  have hlen : (nonce ++ gcmSeal K nonce (utf8Encode P)).length =
      2 * (utf8Encode P).length + 56 := by
    simp [gcmSeal_length K nonce _ hk hn, hn]
    omega
  unfold decryptSecret
  rw [if_neg (by omega), hdec]
  simp only []
  rw [if_neg (by omega)]
  have htake : (nonce ++ gcmSeal K nonce (utf8Encode P)).take 12 = nonce := by
    rw [← hn]; exact List.take_left nonce _
  have hdrop : (nonce ++ gcmSeal K nonce (utf8Encode P)).drop 12 =
      gcmSeal K nonce (utf8Encode P) := by
    rw [← hn]; exact List.drop_left nonce _
  rw [htake, hdrop]
  have hopen : gcmOpen K2 nonce (gcmSeal K nonce (utf8Encode P)) = none := by
    set ct := streamEnc K nonce 0 (utf8Encode P) with hct
    have hctlen : ct.length = (utf8Encode P).length :=
      streamEnc_length K nonce 0 _
    have hslen : (gcmSeal K nonce (utf8Encode P)).length =
        2 * (utf8Encode P).length + 44 := gcmSeal_length K nonce _ hk hn
    unfold gcmOpen
    rw [if_pos (by omega)]
    have hm : ((gcmSeal K nonce (utf8Encode P)).length - 44) / 2 = ct.length := by
      omega
    rw [hm]
    rw [if_neg ?hfail]
    case hfail =>
      intro hcheck
      have htakeCt : (gcmSeal K nonce (utf8Encode P)).take ct.length = ct := by
        simp only [gcmSeal, ← hct]
        exact List.take_left ct _
      have hdropCt : (gcmSeal K nonce (utf8Encode P)).drop ct.length =
          K ++ (nonce ++ ct) := by
        simp only [gcmSeal, ← hct]
        exact List.drop_left ct _
      rw [hdropCt, htakeCt] at hcheck
      exact hne (List.append_inj hcheck (by rw [hk, hK2])).1.symm
  rw [hopen]

/-! ## Claim theorems for the cipher layer -/

/-- A fixed well-formed key, nonce and multi-byte plaintext used by the
witnesses. -/
def sampleKey : List Nat := List.replicate 32 1

def sampleKey2 : List Nat := List.replicate 32 2

def sampleNonce : List Nat := List.range 12

def samplePlain : List Nat := [109, 121, 20013, 128169]

/-- C1: for every 32-byte key K and every UTF-8 string P (including the
empty string and multi-byte code points), decrypting the encryption of P
under K with the same K returns exactly P. -/
theorem roundtrip_law (P K nonce : List Nat) (h : ValidParams P K nonce) :
    ∃ C, encryptSecret P K nonce = .ok C ∧ decryptSecret C K = .ok P :=
  ⟨_, encryptSecret_eq P K nonce h.1, decrypt_encrypt_aux P K nonce h⟩

theorem roundtrip_law_witness :
    (∃ C, encryptSecret samplePlain sampleKey sampleNonce = .ok C ∧
      decryptSecret C sampleKey = .ok samplePlain) ∧
    (∃ C, encryptSecret [] sampleKey sampleNonce = .ok C ∧
      decryptSecret C sampleKey = .ok []) :=
  ⟨roundtrip_law samplePlain sampleKey sampleNonce (by decide),
   roundtrip_law [] sampleKey sampleNonce (by decide)⟩

/-- C2: any single-byte modification of the base64-decoded buffer of a
valid ciphertext (nonce, body or tag), and any decryption under a
different 32-byte key, fails with `DecryptionFailed`; a modified
plaintext is never returned. -/
theorem tamper_detection (P K nonce c : List Nat)
    (h : ValidParams P K nonce)
    (henc : encryptSecret P K nonce = .ok c) :
    ∃ buf, base64Decode c = some buf ∧
      (∀ i b, i < buf.length → b < 256 → ¬ buf[i]? = some b →
        decryptSecret (base64Encode (buf.set i b)) K =
          .error .DecryptionFailed) ∧
      (∀ K2 : List Nat, K2.length = 32 → K2 ≠ K →
        decryptSecret c K2 = .error .DecryptionFailed) := by
  have hc : c = base64Encode (nonce ++ gcmSeal K nonce (utf8Encode P)) := by
    rw [encryptSecret_eq P K nonce h.1] at henc
    exact (Except.ok.inj henc).symm
  refine ⟨nonce ++ gcmSeal K nonce (utf8Encode P), ?_, ?_, ?_⟩
  · rw [hc]; exact encryptBuffer_decode P K nonce h
  · intro i b hi hblt hbne
    exact decrypt_tampered_aux P K nonce h i b hi hblt hbne
  · intro K2 hK2 hne
    rw [hc]
    exact decrypt_wrong_key_aux P K K2 nonce h hK2 hne

theorem tamper_detection_witness :
    ∃ buf, base64Decode
        (base64Encode (sampleNonce ++
          gcmSeal sampleKey sampleNonce (utf8Encode samplePlain))) =
        some buf ∧
      (∀ i b, i < buf.length → b < 256 → ¬ buf[i]? = some b →
        decryptSecret (base64Encode (buf.set i b)) sampleKey =
          .error .DecryptionFailed) ∧
      (∀ K2 : List Nat, K2.length = 32 → K2 ≠ sampleKey →
        decryptSecret
          (base64Encode (sampleNonce ++
            gcmSeal sampleKey sampleNonce (utf8Encode samplePlain)))
          K2 = .error .DecryptionFailed) :=
  tamper_detection samplePlain sampleKey sampleNonce _ (by decide)
    (encryptSecret_eq samplePlain sampleKey sampleNonce (by decide))

def sampleNonce2 : List Nat := List.replicate 12 7

/-- C3: `decrypt` checks its preconditions in order — wrong key length
gives `InvalidKeyLength` (for any ciphertext, even garbage), a
non-base64 ciphertext gives `InvalidEncoding`, and a decoded buffer
shorter than 12 bytes gives `TruncatedCiphertext` — and `encrypt`
performs the same key-length check.  Since each error is produced for
*every* ciphertext/plaintext satisfying the guard, no cryptographic work
is involved. -/
theorem precondition_errors :
    (∀ ct key : List Nat, key.length ≠ 32 →
      decryptSecret ct key = .error .InvalidKeyLength) ∧
    (∀ ct key : List Nat, key.length = 32 → base64Decode ct = none →
      decryptSecret ct key = .error .InvalidEncoding) ∧
    (∀ ct key buf : List Nat, key.length = 32 → base64Decode ct = some buf →
      buf.length < 12 → decryptSecret ct key = .error .TruncatedCiphertext) ∧
    (∀ pt key nonce : List Nat, key.length ≠ 32 →
      encryptSecret pt key nonce = .error .InvalidKeyLength) := by
  refine ⟨?_, ?_, ?_, ?_⟩
  · intro ct key hk
    unfold decryptSecret
    rw [if_pos hk]
  · intro ct key hk hd
    unfold decryptSecret
    rw [if_neg (by omega), hd]
  · intro ct key buf hk hd hlen
    unfold decryptSecret
    rw [if_neg (by omega), hd]
    simp only []
    rw [if_pos hlen]
  · intro pt key nonce hk
    unfold encryptSecret
    rw [if_pos hk]

theorem precondition_errors_witness :
    decryptSecret [] (List.replicate 16 0) = .error .InvalidKeyLength ∧
    decryptSecret [33, 33, 33, 33] sampleKey = .error .InvalidEncoding ∧
    decryptSecret (base64Encode [1, 2, 3, 4, 5]) sampleKey =
      .error .TruncatedCiphertext ∧
    encryptSecret [] (List.replicate 31 0) sampleNonce =
      .error .InvalidKeyLength :=
  ⟨precondition_errors.1 [] (List.replicate 16 0) (by decide),
   precondition_errors.2.1 [33, 33, 33, 33] sampleKey (by decide) (by decide),
   precondition_errors.2.2.1 (base64Encode [1, 2, 3, 4, 5]) sampleKey
     [1, 2, 3, 4, 5] (by decide)
     (base64Decode_base64Encode [1, 2, 3, 4, 5] (by decide)) (by decide),
   precondition_errors.2.2.2 [] (List.replicate 31 0) sampleNonce (by decide)⟩

/-- C5: every output of `encrypt` base64-decodes to the exact layout
`nonce (12 bytes) || ciphertext-and-tag`, hence has decoded length at
least 12, and decoding then re-encoding reproduces the ciphertext
string. -/
theorem ciphertext_layout (P K nonce C : List Nat)
    (h : ValidParams P K nonce) (hC : encryptSecret P K nonce = .ok C) :
    ∃ body, base64Decode C = some (nonce ++ body) ∧
      12 ≤ (nonce ++ body).length ∧ (nonce ++ body).take 12 = nonce ∧
      base64Encode (nonce ++ body) = C := by
  have hc : C = base64Encode (nonce ++ gcmSeal K nonce (utf8Encode P)) := by
    rw [encryptSecret_eq P K nonce h.1] at hC
    exact (Except.ok.inj hC).symm
  refine ⟨gcmSeal K nonce (utf8Encode P), ?_, ?_, ?_, hc.symm⟩
  · rw [hc]; exact encryptBuffer_decode P K nonce h
  · have := gcmSeal_length K nonce (utf8Encode P) h.1 h.2.2.1
    simp [h.2.2.1]
  · rw [← h.2.2.1]; exact List.take_left nonce _

theorem ciphertext_layout_witness :
    ∃ body,
      base64Decode (base64Encode (sampleNonce ++
        gcmSeal sampleKey sampleNonce (utf8Encode samplePlain))) =
        some (sampleNonce ++ body) ∧
      12 ≤ (sampleNonce ++ body).length ∧
      (sampleNonce ++ body).take 12 = sampleNonce ∧
      base64Encode (sampleNonce ++ body) =
        base64Encode (sampleNonce ++
          gcmSeal sampleKey sampleNonce (utf8Encode samplePlain)) :=
  ciphertext_layout samplePlain sampleKey sampleNonce _ (by decide)
    (encryptSecret_eq samplePlain sampleKey sampleNonce (by decide))

/-- C6: with the CSPRNG draw made explicit, two encryptions of the same
plaintext under the same key with distinct 12-byte nonces produce
distinct ciphertext strings. -/
theorem nonce_distinct_ciphertexts (P K n1 n2 c1 c2 : List Nat)
    (h1 : ValidParams P K n1) (h2 : ValidParams P K n2) (hne : n1 ≠ n2)
    (e1 : encryptSecret P K n1 = .ok c1)
    (e2 : encryptSecret P K n2 = .ok c2) :
    c1 ≠ c2 := by
  intro heq
  have hd1 : base64Decode c1 = some (n1 ++ gcmSeal K n1 (utf8Encode P)) := by
    rw [encryptSecret_eq P K n1 h1.1] at e1
    rw [← Except.ok.inj e1]
    exact encryptBuffer_decode P K n1 h1
  have hd2 : base64Decode c2 = some (n2 ++ gcmSeal K n2 (utf8Encode P)) := by
    rw [encryptSecret_eq P K n2 h2.1] at e2
    rw [← Except.ok.inj e2]
    exact encryptBuffer_decode P K n2 h2
  rw [heq, hd2] at hd1
  exact hne (List.append_inj (Option.some.inj hd1).symm
    (by rw [h1.2.2.1, h2.2.2.1])).1

theorem nonce_distinct_ciphertexts_witness :
    base64Encode (sampleNonce ++
      gcmSeal sampleKey sampleNonce (utf8Encode samplePlain)) ≠
    base64Encode (sampleNonce2 ++
      gcmSeal sampleKey sampleNonce2 (utf8Encode samplePlain)) :=
  nonce_distinct_ciphertexts samplePlain sampleKey sampleNonce sampleNonce2
    _ _ (by decide) (by decide) (by decide)
    (encryptSecret_eq samplePlain sampleKey sampleNonce (by decide))
    (encryptSecret_eq samplePlain sampleKey sampleNonce2 (by decide))

/-! ## Token parsing (spec §4.1 `extractClientKey`, called `parseJWT` by
the components)

Modelled from the spec: split on the dot, require exactly three segments,
convert the payload segment from base64url to standard base64, decode,
parse the bytes as UTF-8 JSON, require a string field `client_key`, and
base64-decode its value. -/

/-- Split an ASCII string on the dot character (code 46). -/
def splitOnDot : List Nat → List (List Nat)
  | [] => [[]]
  | c :: rest =>
      if c = 46 then [] :: splitOnDot rest
      else
        match splitOnDot rest with
        | s :: ss => (c :: s) :: ss
        | [] => [[c]]

/-- base64url to standard base64: map `-` to `+` and `_` to `/`, then pad
with `=` to a length that is a multiple of four. -/
def base64UrlToStd (s : List Nat) : List Nat :=
  s.map (fun c => if c = 45 then 43 else if c = 95 then 47 else c) ++
    List.replicate ((4 - s.length % 4) % 4) 61

/-- JSON values: object fields and string contents are byte lists. -/
inductive Json where
  | null
  | bool (b : Bool)
  | num
  | str (s : List Nat)
  | arr (xs : List Json)
  | obj (fields : List (List Nat × Json))

def isWsChar (c : Nat) : Bool := c = 32 || c = 9 || c = 10 || c = 13

def skipWs : List Nat → List Nat
  | [] => []
  | c :: rest => if isWsChar c then skipWs rest else c :: rest

def isDigitChar (c : Nat) : Bool := decide (48 ≤ c ∧ c ≤ 57)

def skipDigits : List Nat → List Nat
  | [] => []
  | c :: rest => if isDigitChar c then skipDigits rest else c :: rest

/-- Consume one or more digits. -/
def parseDigits : List Nat → Option (List Nat)
  | [] => none
  | c :: rest => if isDigitChar c then some (skipDigits rest) else none

/-- Consume an optional fraction part. -/
def parseFrac : List Nat → Option (List Nat)
  | 46 :: rest => parseDigits rest
  | l => some l

/-- Consume an optional exponent part. -/
def parseExp : List Nat → Option (List Nat)
  | [] => some []
  | c :: rest =>
      if c = 101 ∨ c = 69 then
        match rest with
        | [] => none
        | s :: rest2 =>
            if s = 43 ∨ s = 45 then parseDigits rest2
            else parseDigits rest
      else some (c :: rest)

/-- Consume a JSON number. -/
def parseNumberRest (l : List Nat) : Option (List Nat) :=
  let l1 := match l with | 45 :: rest => rest | _ => l
  match parseDigits l1 with
  | some l2 =>
      match parseFrac l2 with
      | some l3 => parseExp l3
      | none => none
  | none => none

def hexVal (c : Nat) : Option Nat :=
  if 48 ≤ c ∧ c ≤ 57 then some (c - 48)
  else if 65 ≤ c ∧ c ≤ 70 then some (c - 55)
  else if 97 ≤ c ∧ c ≤ 102 then some (c - 87)
  else none

/-- Parse the body of a JSON string after the opening quote, handling
escapes; `\uXXXX` is emitted as the UTF-8 bytes of the code unit. -/
def parseStringBody : Nat → List Nat → Option (List Nat × List Nat)
  | 0, _ => none
  | _ + 1, [] => none
  | fuel + 1, c :: rest =>
      if c = 34 then some ([], rest)
      else if c = 92 then
        match rest with
        | [] => none
        | e :: rest2 =>
            if e = 34 ∨ e = 92 ∨ e = 47 then
              (parseStringBody fuel rest2).map (fun p => (e :: p.1, p.2))
            else if e = 98 then
              (parseStringBody fuel rest2).map (fun p => (8 :: p.1, p.2))
            else if e = 102 then
              (parseStringBody fuel rest2).map (fun p => (12 :: p.1, p.2))
            else if e = 110 then
              (parseStringBody fuel rest2).map (fun p => (10 :: p.1, p.2))
            else if e = 114 then
              (parseStringBody fuel rest2).map (fun p => (13 :: p.1, p.2))
            else if e = 116 then
              (parseStringBody fuel rest2).map (fun p => (9 :: p.1, p.2))
            else if e = 117 then
              match rest2 with
              | h1 :: h2 :: h3 :: h4 :: rest3 =>
                  match hexVal h1, hexVal h2, hexVal h3, hexVal h4 with
                  | some v1, some v2, some v3, some v4 =>
                      (parseStringBody fuel rest3).map
                        (fun p => (utf8EncodeChar
                          (v1 * 4096 + v2 * 256 + v3 * 16 + v4) ++ p.1, p.2))
                  | _, _, _, _ => none
              | _ => none
            else none
      else (parseStringBody fuel rest).map (fun p => (c :: p.1, p.2))

mutual

/-- Parse one JSON value; fuel decreases on every nested value. -/
def parseValue : Nat → List Nat → Option (Json × List Nat)
  | 0, _ => none
  | fuel + 1, input =>
      match skipWs input with
      | [] => none
      | c :: rest =>
          if c = 34 then
            (parseStringBody rest.length rest).map
              (fun p => (Json.str p.1, p.2))
          else if c = 123 then parseObjBody fuel rest
          else if c = 91 then parseArrBody fuel rest
          else if c = 116 then
            match rest with
            | 114 :: 117 :: 101 :: r => some (Json.bool true, r)
            | _ => none
          else if c = 102 then
            match rest with
            | 97 :: 108 :: 115 :: 101 :: r => some (Json.bool false, r)
            | _ => none
          else if c = 110 then
            match rest with
            | 117 :: 108 :: 108 :: r => some (Json.null, r)
            | _ => none
          else if c = 45 ∨ isDigitChar c then
            (parseNumberRest (c :: rest)).map (fun r => (Json.num, r))
          else none

/-- Parse an object body after the opening brace. -/
def parseObjBody : Nat → List Nat → Option (Json × List Nat)
  | 0, _ => none
  | fuel + 1, input =>
      match skipWs input with
      | 125 :: r => some (Json.obj [], r)
      | _ => (parseMembers fuel input).map (fun p => (Json.obj p.1, p.2))

/-- Parse one or more `"key": value` members up to the closing brace. -/
def parseMembers : Nat → List Nat → Option (List (List Nat × Json) × List Nat)
  | 0, _ => none
  | fuel + 1, input =>
      match skipWs input with
      | 34 :: rest =>
          match parseStringBody rest.length rest with
          | some (key, r1) =>
              match skipWs r1 with
              | 58 :: r2 =>
                  match parseValue fuel r2 with
                  | some (v, r3) =>
                      match skipWs r3 with
                      | 44 :: r4 =>
                          (parseMembers fuel r4).map
                            (fun p => ((key, v) :: p.1, p.2))
                      | 125 :: r4 => some ([(key, v)], r4)
                      | _ => none
                  | none => none
              | _ => none
          | none => none
      | _ => none

/-- Parse an array body after the opening bracket. -/
def parseArrBody : Nat → List Nat → Option (Json × List Nat)
  | 0, _ => none
  | fuel + 1, input =>
      match skipWs input with
      | 93 :: r => some (Json.arr [], r)
      | _ => (parseElems fuel input).map (fun p => (Json.arr p.1, p.2))

/-- Parse one or more array elements up to the closing bracket. -/
def parseElems : Nat → List Nat → Option (List Json × List Nat)
  | 0, _ => none
  | fuel + 1, input =>
      match parseValue fuel input with
      | some (v, r1) =>
          match skipWs r1 with
          | 44 :: r2 => (parseElems fuel r2).map (fun p => (v :: p.1, p.2))
          | 93 :: r2 => some ([v], r2)
          | _ => none
      | none => none

end

/-- Parse a whole byte list as one JSON value. -/
def jsonParse (bytes : List Nat) : Option Json :=
  match parseValue (bytes.length + 1) bytes with
  | some (v, r) => if skipWs r = [] then some v else none
  | none => none

/-- Look a key up in a JSON object field list. -/
def jsonLookup (fields : List (List Nat × Json)) (key : List Nat) :
    Option Json :=
  match fields with
  | [] => none
  | (k, v) :: rest => if k = key then some v else jsonLookup rest key

/-- ASCII of `client_key`. -/
def clientKeyName : List Nat := [99, 108, 105, 101, 110, 116, 95, 107, 101, 121]

/-- Modelled from the spec: `extractClientKey` (imported as `parseJWT` by
the components).  Split on `.`, require exactly three segments, decode
the payload from base64url, parse it as JSON, require a string field
`client_key`, and base64-decode its value. -/
def parseJWT (token : List Nat) : Except CryptoError (List Nat) :=
  let segs := splitOnDot token
  if segs.length ≠ 3 then .error .MalformedToken
  else
    match base64Decode (base64UrlToStd (segs.getD 1 [])) with
    | none => .error .MalformedToken
    | some bytes =>
        match jsonParse bytes with
        | none => .error .MalformedToken
        | some (Json.obj fields) =>
            match jsonLookup fields clientKeyName with
            | some (Json.str s) =>
                match base64Decode s with
                | some keyBytes => .ok keyBytes
                | none => .error .MalformedToken
            | some _ => .error .MissingClaim
            | none => .error .MissingClaim
        | some _ => .error .MissingClaim

/-- ASCII bytes of the literal payload JSON of the spec,
`\x7b"client_key":"AAAAAAAAAAAAAAAAAAAAAAAAAAAAAAA="\x7d` (31 `A`s and one
`=`). -/
def exampleJsonBytes : List Nat :=
  [123, 34] ++ clientKeyName ++ [34, 58, 34] ++
    (List.replicate 31 65 ++ [61]) ++ [34, 125]

/-- The payload segment carrying `exampleJsonBytes` (standard base64 is
also valid base64url here: no `+`, `/`, `-` or `_` occurs). -/
def examplePayload : List Nat := base64Encode exampleJsonBytes

/-- A three-segment token whose payload decodes to `exampleJsonBytes`. -/
def exampleToken : List Nat := [104] ++ [46] ++ examplePayload ++ [46] ++ [115]

/-- ASCII bytes of `\x7b"foo":"bar"\x7d` — valid JSON without `client_key`. -/
def exampleJsonNoClaim : List Nat :=
  [123, 34, 102, 111, 111, 34, 58, 34, 98, 97, 114, 34, 125]

/-- A three-segment token whose payload lacks the `client_key` claim. -/
def exampleTokenNoClaim : List Nat :=
  [104] ++ [46] ++ base64Encode exampleJsonNoClaim ++ [46] ++ [115]

/-- C4 counterexample: the literal payload value of the spec,
`"AAAAAAAAAAAAAAAAAAAAAAAAAAAAAAA="` (31 `A`s) base64-decodes to 23 zero
bytes, not 32, so `extractClientKey` returns 23 zero bytes on the
claimed token — the parse pipeline runs exactly as specified, but the
label of 32 zero bytes on the literal example is wrong. -/
theorem token_literal_counterexample :
    base64Decode (base64UrlToStd examplePayload) = some exampleJsonBytes ∧
    parseJWT exampleToken = .ok (List.replicate 23 0) ∧
    parseJWT exampleToken ≠ .ok (List.replicate 32 0) := by
  refine ⟨by rfl, by rfl, ?_⟩
  intro h
  rw [show parseJWT exampleToken = .ok (List.replicate 23 0) from rfl] at h
  have := Except.ok.inj h
  simp [List.replicate] at this

/-- C4 (amended): `parseJWT` fails with `MalformedToken` on any token
without exactly three dot-separated segments; on the literal example
token it follows the specified pipeline (base64url conversion, base64
decode, JSON parse, `client_key` lookup, base64 decode of the value) and
returns the 23 zero bytes the literal value actually encodes; and a
payload with valid JSON but no `client_key` string field gives
`MissingClaim`. -/
theorem token_parsing_contract :
    (∀ token : List Nat, (splitOnDot token).length ≠ 3 →
      parseJWT token = .error .MalformedToken) ∧
    parseJWT exampleToken = .ok (List.replicate 23 0) ∧
    parseJWT exampleTokenNoClaim = .error .MissingClaim := by
  refine ⟨?_, by rfl, by rfl⟩
  intro token h
  simp only [parseJWT]
  rw [if_pos h]

theorem token_parsing_contract_witness :
    parseJWT [104, 46, 112] = .error .MalformedToken :=
  token_parsing_contract.1 [104, 46, 112] (by decide)

/-! ## Environment detection (`src/utils/env.ts`) and the banner
(`EnvironmentBanner`) -/

/-- The storage key of the auth token. -/
def tokenKey : String := "token"

/-- The literal environment names compared by `getEnvironment`. -/
def envProduction : String := "production"

def envProd : String := "prod"

def envTest : String := "test"

/-- The two environments of `env.ts`. -/
inductive Environment where
  | test
  | production
deriving DecidableEq, Repr

/-- The build-time environment record (`import.meta.env`): the optional
`VITE_ENVIRONMENT` variable and the Vite build `MODE`. -/
structure ViteEnv where
  VITE_ENVIRONMENT : Option String
  MODE : String

/-- Function `getEnvironment` from `src/utils/env.ts`: `production` only when
`VITE_ENVIRONMENT` is exactly `production` or `prod`; every other value
(including unset) yields `test`.  `MODE` is never consulted. -/
def getEnvironment (env : ViteEnv) : Environment :=
  if env.VITE_ENVIRONMENT = some envProduction ∨
      env.VITE_ENVIRONMENT = some envProd then .production
  else if env.VITE_ENVIRONMENT = some envTest then .test
  else .test

/-- Function `isTestEnvironment` from `src/utils/env.ts`. -/
def isTestEnvironment (env : ViteEnv) : Bool :=
  decide (getEnvironment env = .test)

/-- Function `isProductionEnvironment` from `src/utils/env.ts`. -/
def isProductionEnvironment (env : ViteEnv) : Bool :=
  decide (getEnvironment env = .production)

/-- Component `EnvironmentBanner`: the warning banner is rendered exactly when
`isTestEnvironment` holds (`if (!isTest) return null`). -/
def environmentBannerRendered (env : ViteEnv) : Bool :=
  isTestEnvironment env

/-! ## Token storage (`src/utils/api.ts`) -/

/-- Browser `localStorage`, modelled as an association list. -/
def removeItem : List (String × String) → String → List (String × String)
  | [], _ => []
  | p :: rest, k =>
      if p.1 = k then removeItem rest k else p :: removeItem rest k

def getItem : List (String × String) → String → Option String
  | [], _ => none
  | p :: rest, k => if p.1 = k then some p.2 else getItem rest k

/-- Function `authAPI.logout` of api.ts: remove the stored token. -/
def logout (s : List (String × String)) : List (String × String) :=
  removeItem s tokenKey

/-- The error branch of the axios response interceptor (api.ts): on a 401
response it removes the stored token and redirects to `/login`; any
other status leaves storage unchanged.  Returns the new storage and
whether the redirect happened. -/
def responseInterceptorError (status : Nat) (s : List (String × String)) :
    List (String × String) × Bool :=
  if status = 401 then (removeItem s tokenKey, true) else (s, false)

theorem getItem_removeItem (s : List (String × String)) (k : String) :
    getItem (removeItem s k) k = none := by
  induction s with
  | nil => rfl
  | cons p rest ih =>
      by_cases h : p.1 = k
      · simpa [removeItem, h] using ih
      · simpa [removeItem, getItem, h] using ih

/-- C9: the stored token is destroyed on logout, and any API response
with status 401 destroys it too — after either step no token remains in
storage. -/
theorem token_destroyed (s : List (String × String)) (status : Nat) :
    getItem (logout s) tokenKey = none ∧
    (status = 401 →
      getItem (responseInterceptorError status s).1 tokenKey = none) := by
  refine ⟨getItem_removeItem s tokenKey, ?_⟩
  intro h
  simp only [responseInterceptorError, h, if_pos rfl]
  exact getItem_removeItem s tokenKey

theorem token_destroyed_witness :
    getItem (logout [(tokenKey, "abc")]) tokenKey = none ∧
    getItem (responseInterceptorError 401 [(tokenKey, "abc")]).1 tokenKey =
      none :=
  ⟨(token_destroyed [(tokenKey, "abc")] 401).1,
   (token_destroyed [(tokenKey, "abc")] 401).2 rfl⟩

/-- C10: `getEnvironment` returns `production` iff `VITE_ENVIRONMENT` is
exactly `production` or `prod`; everything else — unset included, and
whatever the build `MODE` (the quantification over `env` covers
`MODE = "production"`) — yields `test`; `isTestEnvironment` and
`isProductionEnvironment` are complementary; with `VITE_ENVIRONMENT`
unset the test-environment banner is rendered. -/
theorem environment_detection (env : ViteEnv) :
    (getEnvironment env = .production ↔
      env.VITE_ENVIRONMENT = some envProduction ∨
        env.VITE_ENVIRONMENT = some envProd) ∧
    isTestEnvironment env = !isProductionEnvironment env ∧
    (env.VITE_ENVIRONMENT = none →
      getEnvironment env = .test ∧ environmentBannerRendered env = true) := by
  refine ⟨?_, ?_, ?_⟩
  · unfold getEnvironment
    constructor
    · intro h
      by_contra hc
      push_neg at hc
      rw [if_neg (by tauto)] at h
      split at h <;> simp_all
    · intro h
      rw [if_pos h]
  · unfold isTestEnvironment isProductionEnvironment getEnvironment
    split
    · simp
    · split <;> simp
  · intro h
    unfold environmentBannerRendered isTestEnvironment getEnvironment
    rw [if_neg (by simp [h]), if_neg (by simp [h])]
    simp

theorem environment_detection_witness :
    getEnvironment ⟨none, "production"⟩ = .test ∧
    environmentBannerRendered ⟨none, "production"⟩ = true :=
  (environment_detection ⟨none, "production"⟩).2.2 rfl

/-! ## Secret-management component handlers
(`src/components/SecretManagement.tsx`, mirrored in
`src/components/Register.tsx`)

The upload path (`handleBatchUpload` item mapping, lines 98-127, and the
identical policy of `handleSubmitSecret`) sends `key_name`, `active`,
`server_name`, `ip`, `proxy_address`, `wallet_type` and `signature_type`
verbatim, encrypts `private_key` and `api_secret` when non-empty, and
sends `api_key` and `api_passphrase` verbatim.  The read-back path
(`handleGetAndDecrypt`) decrypts `private_key` and `api_secret`, passes
`api_key` and `api_passphrase` through, and handles a legacy `value`
field inside a try/catch whose catch block is empty.  Strings are byte
or scalar-value lists as elsewhere; an empty list is falsy, mirroring
TypeScript truthiness of the empty string. -/

structure BatchItem where
  key_name : List Nat
  active : Bool
  server_name : List Nat
  ip : List Nat
  proxy_address : List Nat
  wallet_type : List Nat
  signature_type : Nat
  private_key : List Nat
  api_secret : List Nat
  api_key : List Nat
  api_passphrase : List Nat

structure StoreSecretRequest where
  key_name : List Nat
  active : Bool
  server_name : List Nat
  ip : List Nat
  proxy_address : List Nat
  wallet_type : List Nat
  signature_type : Nat
  private_key : Option (List Nat)
  api_secret : Option (List Nat)
  api_key : Option (List Nat)
  api_passphrase : Option (List Nat)

/-- Encrypt an optional (possibly empty, hence falsy) field; an
encryption failure propagates as a thrown error does in the handler. -/
def encField (v ck nonce : List Nat) :
    Except CryptoError (Option (List Nat)) :=
  if v ≠ [] then (encryptSecret v ck nonce).map some else .ok none

/-- The per-item mapping of `handleBatchUpload` (SecretManagement.tsx
lines 98-127): only `private_key` and `api_secret` pass through
`encryptSecret`; `api_key` and `api_passphrase` are sent verbatim, as
are all remaining fields.  Each encryption call draws its own nonce
(`n1`, `n2`). -/
def buildBatchSecret (item : BatchItem) (ck n1 n2 : List Nat) :
    Except CryptoError StoreSecretRequest :=
  match encField item.private_key ck n1 with
  | .error e => .error e
  | .ok pk =>
      match encField item.api_secret ck n2 with
      | .error e => .error e
      | .ok asec =>
          .ok { key_name := item.key_name
                active := item.active
                server_name := item.server_name
                ip := item.ip
                proxy_address := item.proxy_address
                wallet_type := item.wallet_type
                signature_type := item.signature_type
                private_key := pk
                api_secret := asec
                api_key := if item.api_key ≠ [] then some item.api_key else none
                api_passphrase :=
                  if item.api_passphrase ≠ [] then some item.api_passphrase
                  else none }

/-- The secret record returned by `secretsAPI.getSecret`, restricted to
the fields the cipher layer touches. -/
structure SecretRecord where
  private_key : Option (List Nat)
  api_secret : Option (List Nat)
  api_key : Option (List Nat)
  api_passphrase : Option (List Nat)
  value : Option (List Nat)

structure DecryptedSecretData where
  private_key : Option (List Nat)
  api_secret : Option (List Nat)
  api_key : Option (List Nat)
  api_passphrase : Option (List Nat)

/-- Decrypt an optional field; a decryption failure propagates. -/
def decField (v : Option (List Nat)) (ck : List Nat) :
    Except CryptoError (Option (List Nat)) :=
  match v with
  | none => .ok none
  | some c => (decryptSecret c ck).map some

def privateKeyName : List Nat :=
  [112, 114, 105, 118, 97, 116, 101, 95, 107, 101, 121]

def apiSecretName : List Nat := [97, 112, 105, 95, 115, 101, 99, 114, 101, 116]

def apiKeyName : List Nat := [97, 112, 105, 95, 107, 101, 121]

def apiPassphraseName : List Nat :=
  [97, 112, 105, 95, 112, 97, 115, 115, 112, 104, 114, 97, 115, 101]

/-- The `Object.assign(decrypted, parsed)` step restricted to the four sensitive
fields, taking string-valued JSON fields only. -/
def assignFields (d : DecryptedSecretData)
    (fields : List (List Nat × Json)) : DecryptedSecretData :=
  { private_key :=
      match jsonLookup fields privateKeyName with
      | some (Json.str v) => some v
      | _ => d.private_key
    api_secret :=
      match jsonLookup fields apiSecretName with
      | some (Json.str v) => some v
      | _ => d.api_secret
    api_key :=
      match jsonLookup fields apiKeyName with
      | some (Json.str v) => some v
      | _ => d.api_key
    api_passphrase :=
      match jsonLookup fields apiPassphraseName with
      | some (Json.str v) => some v
      | _ => d.api_passphrase }

/-- Handler `handleGetAndDecrypt` (SecretManagement.tsx lines 264-327, and the
same structure in Register.tsx): decrypt `private_key` and `api_secret`
(failures propagate to the handler), pass `api_key` and `api_passphrase`
through verbatim, then handle the legacy `value` field — whose
decryption failure is swallowed by an empty catch block
(`catch (e) \x7b /* ignore */ \x7d`). -/
def handleGetAndDecrypt (secret : SecretRecord) (ck : List Nat) :
    Except CryptoError DecryptedSecretData :=
  match decField secret.private_key ck with
  | .error e => .error e
  | .ok pk =>
      match decField secret.api_secret ck with
      | .error e => .error e
      | .ok asec =>
          let d : DecryptedSecretData :=
            { private_key := pk, api_secret := asec,
              api_key := secret.api_key,
              api_passphrase := secret.api_passphrase }
          match secret.value, pk with
          | some v, none =>
              match decryptSecret v ck with
              | .ok dv =>
                  match jsonParse dv with
                  | some (Json.obj fields) => .ok (assignFields d fields)
                  | _ => .ok { d with private_key := some dv }
              | .error _ => .ok d
          | _, _ => .ok d

/-- A concrete batch item for the witnesses. -/
def sampleItem : BatchItem :=
  { key_name := [107], active := true, server_name := [115], ip := [105],
    proxy_address := [112], wallet_type := [119], signature_type := 2,
    private_key := [112, 107, 20013], api_secret := [97, 115],
    api_key := [97, 107], api_passphrase := [97, 112] }

/-- C7: exactly `private_key` and `api_secret` pass through
`encryptSecret` on upload and `decryptSecret` on read-back, while
`api_key` and `api_passphrase` (and every other field) are transported
verbatim. -/
theorem field_encryption_policy (item : BatchItem) (ck n1 n2 : List Nat)
    (h1 : ValidParams item.private_key ck n1)
    (h2 : ValidParams item.api_secret ck n2)
    (hpk : item.private_key ≠ []) (has : item.api_secret ≠ []) :
    ∃ e1 e2,
      encryptSecret item.private_key ck n1 = .ok e1 ∧
      encryptSecret item.api_secret ck n2 = .ok e2 ∧
      buildBatchSecret item ck n1 n2 = .ok
        { key_name := item.key_name
          active := item.active
          server_name := item.server_name
          ip := item.ip
          proxy_address := item.proxy_address
          wallet_type := item.wallet_type
          signature_type := item.signature_type
          private_key := some e1
          api_secret := some e2
          api_key := if item.api_key ≠ [] then some item.api_key else none
          api_passphrase :=
            if item.api_passphrase ≠ [] then some item.api_passphrase
            else none } ∧
      handleGetAndDecrypt
        { private_key := some e1, api_secret := some e2,
          api_key := if item.api_key ≠ [] then some item.api_key else none,
          api_passphrase :=
            if item.api_passphrase ≠ [] then some item.api_passphrase
            else none,
          value := none } ck =
        .ok { private_key := some item.private_key,
              api_secret := some item.api_secret,
              api_key :=
                if item.api_key ≠ [] then some item.api_key else none,
              api_passphrase :=
                if item.api_passphrase ≠ [] then some item.api_passphrase
                else none } := by
  refine ⟨base64Encode (n1 ++ gcmSeal ck n1 (utf8Encode item.private_key)),
    base64Encode (n2 ++ gcmSeal ck n2 (utf8Encode item.api_secret)),
    encryptSecret_eq item.private_key ck n1 h1.1,
    encryptSecret_eq item.api_secret ck n2 h2.1, ?_, ?_⟩
  · unfold buildBatchSecret encField
    rw [if_pos hpk, encryptSecret_eq item.private_key ck n1 h1.1,
      if_pos has, encryptSecret_eq item.api_secret ck n2 h2.1]
    rfl
  · unfold handleGetAndDecrypt decField
    simp only []
    rw [decrypt_encrypt_aux item.private_key ck n1 h1,
      decrypt_encrypt_aux item.api_secret ck n2 h2]
    rfl

theorem field_encryption_policy_witness :
    ∃ e1 e2,
      encryptSecret sampleItem.private_key sampleKey sampleNonce = .ok e1 ∧
      encryptSecret sampleItem.api_secret sampleKey sampleNonce2 = .ok e2 ∧
      buildBatchSecret sampleItem sampleKey sampleNonce sampleNonce2 = .ok
        { key_name := sampleItem.key_name
          active := sampleItem.active
          server_name := sampleItem.server_name
          ip := sampleItem.ip
          proxy_address := sampleItem.proxy_address
          wallet_type := sampleItem.wallet_type
          signature_type := sampleItem.signature_type
          private_key := some e1
          api_secret := some e2
          api_key :=
            if sampleItem.api_key ≠ [] then some sampleItem.api_key else none
          api_passphrase :=
            if sampleItem.api_passphrase ≠ [] then
              some sampleItem.api_passphrase
            else none } ∧
      handleGetAndDecrypt
        { private_key := some e1, api_secret := some e2,
          api_key :=
            if sampleItem.api_key ≠ [] then some sampleItem.api_key else none,
          api_passphrase :=
            if sampleItem.api_passphrase ≠ [] then
              some sampleItem.api_passphrase
            else none,
          value := none } sampleKey =
        .ok { private_key := some sampleItem.private_key,
              api_secret := some sampleItem.api_secret,
              api_key :=
                if sampleItem.api_key ≠ [] then some sampleItem.api_key
                else none,
              api_passphrase :=
                if sampleItem.api_passphrase ≠ [] then
                  some sampleItem.api_passphrase
                else none } :=
  field_encryption_policy sampleItem sampleKey sampleNonce sampleNonce2
    (by decide) (by decide) (by decide) (by decide)

/-- C8 counterexample: a stored secret carrying only a legacy `value`
field that is not valid base64 — the inner `decryptSecret` fails with
`InvalidEncoding` — yet `handleGetAndDecrypt` returns success: the
failure is swallowed by the empty catch block
(SecretManagement.tsx lines 308-310, Register.tsx lines 495-497). -/
theorem silent_swallow_counterexample :
    decryptSecret [33] sampleKey = .error .InvalidEncoding ∧
    handleGetAndDecrypt ⟨none, none, none, none, some [33]⟩ sampleKey =
      .ok ⟨none, none, none, none⟩ :=
  ⟨by rfl, by rfl⟩

/-- C8 (amended): every failure of `encryptSecret` on upload (on the
`private_key` field, and on the `api_secret` field whenever the
`private_key` encryption itself did not fail first) and every failure of
`decryptSecret` on the `private_key` / `api_secret` fields (the latter
whatever the decryption of `private_key` produced, provided it did not
itself fail first) surfaces to the handler; only a failure decrypting
the legacy `value` field is deliberately swallowed — the handler then
reports success with the legacy field ignored and the other fields
intact. -/
theorem error_propagation :
    (∀ (item : BatchItem) (ck n1 n2 : List Nat) (e : CryptoError),
      encField item.private_key ck n1 = .error e →
      buildBatchSecret item ck n1 n2 = .error e) ∧
    (∀ (item : BatchItem) (ck n1 n2 : List Nat) (pk : Option (List Nat))
        (e : CryptoError),
      encField item.private_key ck n1 = .ok pk →
      encField item.api_secret ck n2 = .error e →
      buildBatchSecret item ck n1 n2 = .error e) ∧
    (∀ (secret : SecretRecord) (ck c : List Nat) (e : CryptoError),
      secret.private_key = some c → decryptSecret c ck = .error e →
      handleGetAndDecrypt secret ck = .error e) ∧
    (∀ (secret : SecretRecord) (ck c : List Nat) (pk : Option (List Nat))
        (e : CryptoError),
      decField secret.private_key ck = .ok pk →
      secret.api_secret = some c → decryptSecret c ck = .error e →
      handleGetAndDecrypt secret ck = .error e) ∧
    (∀ (secret : SecretRecord) (ck v : List Nat) (asec : Option (List Nat))
        (e : CryptoError),
      secret.private_key = none →
      decField secret.api_secret ck = .ok asec →
      secret.value = some v → decryptSecret v ck = .error e →
      handleGetAndDecrypt secret ck =
        .ok ⟨none, asec, secret.api_key, secret.api_passphrase⟩) := by
  refine ⟨?_, ?_, ?_, ?_, ?_⟩
  · intro item ck n1 n2 e h
    unfold buildBatchSecret
    rw [h]
  · intro item ck n1 n2 pk e h1 h2
    unfold buildBatchSecret
    rw [h1]
    simp only []
    rw [h2]
  · intro secret ck c e hpk hd
    unfold handleGetAndDecrypt decField
    rw [hpk]
    simp only []
    rw [hd]
    rfl
  · intro secret ck c pk e hpk has hd
    unfold handleGetAndDecrypt
    rw [hpk]
    simp only []
    rw [has]
    unfold decField
    simp only []
    rw [hd]
    rfl
  · intro secret ck v asec e hpk has hv hd
    unfold handleGetAndDecrypt
    rw [hpk]
    rw [show decField (none : Option (List Nat)) ck = Except.ok none from rfl]
    simp only []
    rw [has]
    simp only []
    rw [hv]
    simp only []
    rw [hd]

/-- The sample item with an empty (falsy) `private_key`, so that the
upload paths reach the `api_secret` encryption. -/
def sampleItemNoPk : BatchItem := { sampleItem with private_key := [] }

/-- A valid ciphertext of the one-character plaintext `p` under
`sampleKey` and `sampleNonce`, decrypting successfully. -/
def sampleCipherPk : List Nat :=
  base64Encode (sampleNonce ++ gcmSeal sampleKey sampleNonce
    (utf8Encode [112]))

/-- A valid ciphertext of the one-character plaintext `q` under
`sampleKey` and `sampleNonce2`, decrypting successfully. -/
def sampleCipherAs : List Nat :=
  base64Encode (sampleNonce2 ++ gcmSeal sampleKey sampleNonce2
    (utf8Encode [113]))

theorem error_propagation_witness :
    buildBatchSecret sampleItem (List.replicate 16 0) sampleNonce
      sampleNonce2 = .error .InvalidKeyLength ∧
    buildBatchSecret sampleItemNoPk (List.replicate 16 0) sampleNonce
      sampleNonce2 = .error .InvalidKeyLength ∧
    handleGetAndDecrypt ⟨some [33], none, none, none, none⟩ sampleKey =
      .error .InvalidEncoding ∧
    handleGetAndDecrypt ⟨some sampleCipherPk, some [33], none, none, none⟩
      sampleKey = .error .InvalidEncoding ∧
    handleGetAndDecrypt
      ⟨none, some sampleCipherAs, some [97], some [98], some [33]⟩
      sampleKey = .ok ⟨none, some [113], some [97], some [98]⟩ :=
  ⟨error_propagation.1 sampleItem (List.replicate 16 0) sampleNonce
      sampleNonce2 .InvalidKeyLength (by rfl),
   error_propagation.2.1 sampleItemNoPk (List.replicate 16 0) sampleNonce
      sampleNonce2 none .InvalidKeyLength (by rfl) (by rfl),
   error_propagation.2.2.1 ⟨some [33], none, none, none, none⟩ sampleKey
      [33] .InvalidEncoding rfl (by rfl),
   error_propagation.2.2.2.1
      ⟨some sampleCipherPk, some [33], none, none, none⟩ sampleKey [33]
      (some [112]) .InvalidEncoding (by rfl) rfl (by rfl),
   error_propagation.2.2.2.2
      ⟨none, some sampleCipherAs, some [97], some [98], some [33]⟩
      sampleKey [33] (some [113]) .InvalidEncoding rfl (by rfl) rfl
      (by rfl)⟩

end PolyKMS
